import Mathlib

/-!
# Verification of the substrate_handshake client (`src/main.rs`)

A shallow embedding of the session-management layer of the
`substrate_handshake` client: the SCALE message codec derived for
`HandshakeMessage`, the handshake exchange `perform_handshake`, the
JSON-RPC receive loop of `query_node_info`, the genesis-hash
configuration gate in `main`, and the lock-event traces of the two
operations on the shared WebSocket stream.

Machine bytes are modelled as `Nat` together with explicit `< 256`
bounds where they matter; Rust `String` fields are modelled by their
UTF-8 byte sequences (`List Nat`), so the codec is stated at the byte
level exactly as `parity_scale_codec` reads and writes it (the UTF-8
well-formedness check of `String::decode` is the one part elided: it
always succeeds on the byte sequence of a real `String`).  Fallible
operations return `Option`; the remote peer and the transport are
inputs (lists of received items), so every function here is executable.
-/

namespace SubstrateHandshake

/-! ## SCALE codec primitives

`parity_scale_codec` encodes `u32` as four little-endian bytes and
collection lengths as `Compact<u32>`. -/

/-- Four little-endian bytes of `n % 2^32` — the encoding of a `u32`. -/
def toLE4 (n : Nat) : List Nat :=
  [n % 256, n / 256 % 256, n / 65536 % 256, n / 16777216 % 256]

/-- Recompose a `u32` from four little-endian bytes (the decode side of
`u32::decode`).  Defined on exactly four bytes; other shapes return 0 and
are never reached by the decoder, which always feeds it four bytes. -/
def fromLE4 : List Nat → Nat
  | [b0, b1, b2, b3] => b0 + 256 * b1 + 65536 * b2 + 16777216 * b3
  | _ => 0

/-- SCALE `Compact<u32>` encoding: two low mode bits select single-byte
(`n < 2^6`), two-byte (`n < 2^14`), four-byte (`n < 2^30`) or
big-integer (`0b11` prefix, four further bytes) form. -/
def compactEncode (n : Nat) : List Nat :=
  if n < 64 then [n * 4]
  else if n < 16384 then [(n * 4 + 1) % 256, (n * 4 + 1) / 256]
  else if n < 1073741824 then toLE4 (n * 4 + 2)
  else 3 :: toLE4 n

/-- SCALE `Compact<u32>` decoding, with the range (canonicity) checks of
`parity_scale_codec`: each mode only accepts the values it is the
shortest form for, and the big-integer mode only a one-word length. -/
def compactDecode : List Nat → Option (Nat × List Nat)
  | [] => none
  | b :: rest =>
    if b % 4 = 0 then some (b / 4, rest)
    else if b % 4 = 1 then
      match rest with
      | b2 :: rest2 =>
        let x := (b + 256 * b2) / 4
        if 64 ≤ x ∧ x < 16384 then some (x, rest2) else none
      | [] => none
    else if b % 4 = 2 then
      match rest with
      | b2 :: b3 :: b4 :: rest2 =>
        let x := (b + 256 * b2 + 65536 * b3 + 16777216 * b4) / 4
        if 16384 ≤ x ∧ x < 1073741824 then some (x, rest2) else none
      | _ => none
    else
      if b / 4 = 0 then
        match rest with
        | b2 :: b3 :: b4 :: b5 :: rest2 =>
          let x := b2 + 256 * b3 + 65536 * b4 + 16777216 * b5
          if 1073741824 ≤ x then some (x, rest2) else none
        | _ => none
      else none

/-- Read exactly `n` bytes off the front of the input (`[u8; 32]` and the
byte payload of a length-prefixed `Vec<u8>`/`String` are read this way);
fails when fewer than `n` bytes remain. -/
def takeN (n : Nat) (l : List Nat) : Option (List Nat × List Nat) :=
  if n ≤ l.length then some (l.take n, l.drop n) else none

/-! ## The handshake message and its derived codec -/

/-- `HandshakeMessage` from `src/main.rs` (lines 16–22): string fields are
carried as their UTF-8 byte sequences, `genesis_hash` as a byte list whose
length-32 invariant is tracked by `ValidMsg`. -/
structure HandshakeMessage where
  version : Nat
  name : List Nat
  chain : List Nat
  genesis_hash : List Nat
  capabilities : List (List Nat)
  deriving DecidableEq, Repr

/-- The invariants the Rust types give a real in-memory value: `u32`
version, `[u8; 32]` genesis hash, byte-valued strings whose lengths fit
the `Compact<u32>` length prefixes. -/
def ValidMsg (m : HandshakeMessage) : Prop :=
  m.version < 4294967296 ∧
  m.name.length < 4294967296 ∧ (∀ b ∈ m.name, b < 256) ∧
  m.chain.length < 4294967296 ∧ (∀ b ∈ m.chain, b < 256) ∧
  m.genesis_hash.length = 32 ∧ (∀ b ∈ m.genesis_hash, b < 256) ∧
  m.capabilities.length < 4294967296 ∧
  (∀ c ∈ m.capabilities, c.length < 4294967296 ∧ ∀ b ∈ c, b < 256)

instance (m : HandshakeMessage) : Decidable (ValidMsg m) := by
  unfold ValidMsg; infer_instance

/-- SCALE encoding of a string field: compact length prefix, then the bytes. -/
def encodeStr (s : List Nat) : List Nat := compactEncode s.length ++ s

/-- SCALE encoding of `Vec<String>`: compact element count, then each
string encoded in order. -/
def encodeCaps (cs : List (List Nat)) : List Nat :=
  compactEncode cs.length ++ (cs.map encodeStr).flatten

/-- The derived `Encode` impl: every field in declaration order. -/
def encode (m : HandshakeMessage) : List Nat :=
  toLE4 m.version ++ encodeStr m.name ++ encodeStr m.chain ++
    m.genesis_hash ++ encodeCaps m.capabilities

/-- Decode one string field: compact length, then that many bytes. -/
def decodeStr (l : List Nat) : Option (List Nat × List Nat) := do
  let (len, l) ← compactDecode l
  takeN len l

/-- Decode `n` consecutive string fields (the elements of `Vec<String>`). -/
def decodeCapsAux : Nat → List Nat → Option (List (List Nat) × List Nat)
  | 0, l => some ([], l)
  | n + 1, l => do
    let (s, l) ← decodeStr l
    let (ss, l) ← decodeCapsAux n l
    some (s :: ss, l)

/-- The derived `Decode` impl: read every field in declaration order,
returning the message and the unconsumed tail; `none` is the `Err`
(`DecodeError`) path. -/
def decode (l : List Nat) : Option (HandshakeMessage × List Nat) := do
  let (vb, l) ← takeN 4 l
  let (name, l) ← decodeStr l
  let (chain, l) ← decodeStr l
  let (gh, l) ← takeN 32 l
  let (cnt, l) ← compactDecode l
  let (caps, l) ← decodeCapsAux cnt l
  some (⟨fromLE4 vb, name, chain, gh, caps⟩, l)

/-! ## JSON values and WebSocket frames

The query loop inspects parsed `serde_json::Value`s only through
`.get("error")` and `.get("id")`, so a structural JSON tree suffices. -/

/-- A `serde_json::Value`.  Numbers carry an integer — the only numbers
this client exchanges are request/response ids. -/
inductive Json where
  | null
  | bool (b : Bool)
  | num (n : Int)
  | str (s : String)
  | arr (xs : List Json)
  | obj (fields : List (String × Json))

/-- `Value::get(key)`: field lookup on an object, `None` on every other
variant. -/
def Json.get : Json → String → Option Json
  | .obj fs, k => (fs.find? (fun p => p.1 == k)).map (fun p => p.2)
  | _, _ => none

/-- `value[key]` via the `Index` impl: like `get`, but yielding `Null`
when the key is absent (used by the error-branch log line). -/
def Json.index (j : Json) (k : String) : Json := (j.get k).getD .null

/-- A `tungstenite` `Message`.  A text frame is modelled by the result of
`serde_json::from_str` on its payload: `none` is a payload that is not
valid JSON. -/
inductive Frame where
  | text (parsed : Option Json)
  | binary (payload : List Nat)
  | ping
  | pong
  | close

/-- Whether the frame matches `Message::Text(_)`. -/
def Frame.isText : Frame → Bool
  | .text _ => true
  | _ => false

/-- One item yielded by `ws_stream.next()`: `Ok(frame)` or a transport
error `Err(e)`.  The stream is a finite list of items; once the list is
exhausted, `next()` returns `None` forever (the peer closed the stream). -/
inductive Item where
  | ok (f : Frame)
  | err

/-! ## The RPC query engine (`query_node_info`, lines 89–143) -/

/-- The fixed request batch of `query_node_info` (ids 1, 2, 3). -/
def queryRequests : List Json :=
  [ .obj [("jsonrpc", .str "2.0"), ("method", .str "system_name"),
          ("params", .arr []), ("id", .num 1)],
    .obj [("jsonrpc", .str "2.0"), ("method", .str "system_chain"),
          ("params", .arr []), ("id", .num 2)],
    .obj [("jsonrpc", .str "2.0"), ("method", .str "system_version"),
          ("params", .arr []), ("id", .num 3)] ]

/-- What the receive loop has reported so far: `resolved` are the
`info!`-logged `(id, response)` pairs that incremented
`received_responses`; `errors` are the `error!`-logged
`(response["id"], error)` pairs; `unexpected` are the responses with
neither an `error` nor an `id` field. -/
structure QueryLog where
  resolved : List (Json × Json)
  errors : List (Json × Json)
  unexpected : List Json

/-- The empty log at loop entry. -/
def QueryLog.init : QueryLog := ⟨[], [], []⟩

/-- How the `while received_responses < requests.len()` loop ends.
`hung` is the state in which the stream yields no further items while
the count is still short: `ws_stream.next()` then returns `None` on
every iteration, the `if let Some(msg)` body is skipped, no state
changes, and the loop repeats forever — the function never returns. -/
inductive LoopOutcome where
  | success (log : QueryLog)
  | aborted (log : QueryLog)
  | hung (log : QueryLog)

/-- The receive loop of `query_node_info`: `received_responses` is
`log.resolved.length` (the two are incremented together).  An `Err`
item or a text payload that fails JSON parsing propagates through `?`
(`aborted`); an object with an `error` field is logged but **not**
counted; an object with an `id` field is counted; anything else is
logged as unexpected; non-text frames are skipped silently. -/
def runLoop (items : List Item) (n : Nat) (log : QueryLog) : LoopOutcome :=
  if n ≤ log.resolved.length then .success log
  else
    match items with
    | [] => .hung log
    | .err :: _ => .aborted log
    | .ok f :: rest =>
      match f with
      | .text none => .aborted log
      | .text (some j) =>
        match j.get "error" with
        | some e =>
          runLoop rest n { log with errors := log.errors ++ [(j.index "id", e)] }
        | none =>
          match j.get "id" with
          | some _ =>
            runLoop rest n { log with resolved := log.resolved ++ [(j.index "id", j)] }
          | none =>
            runLoop rest n { log with unexpected := log.unexpected ++ [j] }
      | _ => runLoop rest n log

/-! ## The handshake exchange (`perform_handshake`, lines 58–78) -/

/-- How `perform_handshake` returns.  `ok d` is the `Ok(())` path, with
`d` the decoded reply that was logged if one was received (`none` when
the stream closed first or the reply was not a binary frame — both fall
through the `if let`s straight to `Ok(())`).  The three error outcomes
are the `?` propagation points. -/
inductive HsOutcome where
  | ok (decoded : Option HandshakeMessage)
  | sendFailed
  | recvErr
  | decodeFailed
  deriving DecidableEq

/-- `true` exactly on the `Err` returns of `perform_handshake`. -/
def HsOutcome.isFailure : HsOutcome → Bool
  | .ok _ => false
  | _ => true

/-- `perform_handshake`, with the environment as inputs: `sendOk` is
whether `ws_stream.send(Binary(...))` succeeds, `reply` the first item
the stream yields afterwards (`none`: closed before any reply). -/
def performHandshake (sendOk : Bool) (reply : Option Item) : HsOutcome :=
  if !sendOk then .sendFailed
  else
    match reply with
    | none => .ok none
    | some .err => .recvErr
    | some (.ok f) =>
      match f with
      | .binary b =>
        match decode b with
        | some (m, _) => .ok (some m)
        | none => .decodeFailed
      | _ => .ok none

/-! ## The genesis-hash configuration gate (`main`, lines 171–174) -/

/-- One hex digit, as `hex::decode` accepts them. -/
def hexDigit (c : Char) : Option Nat :=
  if '0' ≤ c ∧ c ≤ '9' then some (c.toNat - 48)
  else if 'a' ≤ c ∧ c ≤ 'f' then some (c.toNat - 87)
  else if 'A' ≤ c ∧ c ≤ 'F' then some (c.toNat - 55)
  else none

/-- `hex::decode`: pairs of hex digits to bytes; fails on an odd-length
string or a non-hex character. -/
def hexDecode : List Char → Option (List Nat)
  | [] => some []
  | [_] => none
  | c1 :: c2 :: rest => do
    let hi ← hexDigit c1
    let lo ← hexDigit c2
    let bs ← hexDecode rest
    some ((16 * hi + lo) :: bs)

/-- Where `main` stands after the two genesis-hash lines and before any
network activity.  `proceed` is the only outcome that reaches
`connect_async`; `errReturn` is the `?` on `hex::decode`; `panic` is the
`.expect("Invalid length for genesis hash")` on the failed `try_into`
when the decoded byte count is not 32. -/
inductive GenesisOutcome where
  | proceed (gh : List Nat)
  | errReturn
  | panic
  deriving DecidableEq, Repr

/-- The genesis-hash gate of `main`: `hex::decode(&opt.genesis_hash)?`
then `try_into().expect(...)`. -/
def genesisGate (s : List Char) : GenesisOutcome :=
  match hexDecode s with
  | none => .errReturn
  | some bs => if bs.length = 32 then .proceed bs else .panic

/-! ## Lock events on the shared stream handle

Both operations run against `Arc<Mutex<WebSocketStream<...>>>`: each
acquires the mutex once (`ws_stream.lock().await`), performs its sends
and receives while holding the guard, and the guard is dropped on every
exit path of the function — including the early `?` returns.  The event
traces below record, per environment, the acquire/release bracket and
the stream operations performed inside it, exactly as the control flow
of `perform_handshake`, `query_node_info` and `main` produces them. -/

/-- One observable action on the shared stream handle. -/
inductive Ev where
  | acquire
  | release
  | send
  | recv
  deriving DecidableEq, Repr

/-- `true` for the events that are not lock operations. -/
def Ev.plain : Ev → Bool
  | .send => true
  | .recv => true
  | _ => false

/-- How the receive loop changes `received_responses` on one `Ok` frame
(the same discrimination `runLoop` performs, counting only). -/
def stepLen (f : Frame) (len : Nat) : Nat :=
  match f with
  | .text (some j) =>
    if (j.get "error").isSome then len
    else if (j.get "id").isSome then len + 1
    else len
  | _ => len

/-- Stream events of the receive loop, with a completion flag: `false`
means the loop reached the state where the stream yields nothing while
the count is short, and never exits (so no event after that point). -/
def loopTrace : List Item → Nat → Nat → List Ev × Bool
  | items, n, len =>
    if n ≤ len then ([], true)
    else
      match items with
      | [] => ([], false)
      | .err :: _ => ([.recv], true)
      | .ok (.text none) :: _ => ([.recv], true)
      | .ok f :: rest =>
        (.recv :: (loopTrace rest n (stepLen f len)).1,
          (loopTrace rest n (stepLen f len)).2)

/-- Lock events of `perform_handshake`: acquire, one send, one receive
unless the send already failed (then the `?` returns early), and the
guard drop on every path. -/
def hsTrace (sendOk : Bool) : List Ev :=
  [.acquire, .send] ++ (if sendOk then [.recv] else []) ++ [.release]

/-- Lock events of `query_node_info`: acquire, the three request sends
(`sendFail i`: send `i` fails and `?` drops the guard and returns),
then the receive loop; the guard drop is only reached if the loop
exits. -/
def queryTrace (sendFail : Option (Fin 3)) (items : List Item) : List Ev × Bool :=
  match sendFail with
  | some i => (.acquire :: (List.replicate (i.val + 1) .send ++ [.release]), true)
  | none =>
    (.acquire :: .send :: .send :: .send ::
      ((loopTrace items queryRequests.length 0).1 ++
        if (loopTrace items queryRequests.length 0).2 then [.release] else []),
      (loopTrace items queryRequests.length 0).2)

/-- Lock events of `main`: the handshake runs first; if it failed, main
returns before the query phase, otherwise the query trace follows. -/
def mainTrace (sendOk : Bool) (reply : Option Item)
    (sendFail : Option (Fin 3)) (items : List Item) : List Ev × Bool :=
  if (performHandshake sendOk reply).isFailure then (hsTrace sendOk, true)
  else
    (hsTrace sendOk ++ (queryTrace sendFail items).1, (queryTrace sendFail items).2)

/-- Mutual exclusion along a trace: starting from lock state `held`,
an acquire requires the lock free, a release (and every stream
operation) requires it held.  Accepts any prefix-consistent trace. -/
def exclusive : List Ev → Bool → Bool
  | [], _ => true
  | .acquire :: r, held => !held && exclusive r true
  | .release :: r, held => held && exclusive r false
  | _ :: r, held => held && exclusive r held

/-- `exclusive`, and additionally the lock is free when the trace ends. -/
def lockOk : List Ev → Bool → Bool
  | [], held => !held
  | .acquire :: r, held => !held && lockOk r true
  | .release :: r, held => held && lockOk r false
  | _ :: r, held => held && lockOk r held

/-! ## Codec lemmas -/

theorem takeN_append (c rest : List Nat) : takeN c.length (c ++ rest) = some (c, rest) := by
  simp [takeN]

theorem takeN_short (n : Nat) (l : List Nat) (h : l.length < n) : takeN n l = none := by
  simp [takeN]; omega

theorem compact_rt (n : Nat) (hn : n < 4294967296) (rest : List Nat) :
    compactDecode (compactEncode n ++ rest) = some (n, rest) := by
  rcases Nat.lt_or_ge n 64 with h1 | h1
  · have he : compactEncode n = [n * 4] := by unfold compactEncode; rw [if_pos h1]
    rw [he]
    show compactDecode (n * 4 :: rest) = some (n, rest)
    unfold compactDecode
    have h0 : n * 4 % 4 = 0 := by omega
    simp [h0]
  · rcases Nat.lt_or_ge n 16384 with h2 | h2
    · have he : compactEncode n = [(n * 4 + 1) % 256, (n * 4 + 1) / 256] := by
        unfold compactEncode; rw [if_neg (by omega), if_pos h2]
      rw [he]
      show compactDecode ((n * 4 + 1) % 256 :: (n * 4 + 1) / 256 :: rest) = some (n, rest)
      unfold compactDecode
      have h0 : ¬ (n * 4 + 1) % 256 % 4 = 0 := by omega
      have hb1 : (n * 4 + 1) % 256 % 4 = 1 := by omega
      have hx : ((n * 4 + 1) % 256 + 256 * ((n * 4 + 1) / 256)) / 4 = n := by omega
      simp [h0, hb1, hx, h1, h2]
    · rcases Nat.lt_or_ge n 1073741824 with h3 | h3
      · have he : compactEncode n = toLE4 (n * 4 + 2) := by
          unfold compactEncode; rw [if_neg (by omega), if_neg (by omega), if_pos h3]
        rw [he]
        unfold toLE4
        show compactDecode ((n * 4 + 2) % 256 :: (n * 4 + 2) / 256 % 256 ::
          (n * 4 + 2) / 65536 % 256 :: (n * 4 + 2) / 16777216 % 256 :: rest) = some (n, rest)
        unfold compactDecode
        have h0 : ¬ (n * 4 + 2) % 256 % 4 = 0 := by omega
        have hb1 : ¬ (n * 4 + 2) % 256 % 4 = 1 := by omega
        have hb2 : (n * 4 + 2) % 256 % 4 = 2 := by omega
        have hx : ((n * 4 + 2) % 256 + 256 * ((n * 4 + 2) / 256 % 256) +
            65536 * ((n * 4 + 2) / 65536 % 256) +
            16777216 * ((n * 4 + 2) / 16777216 % 256)) / 4 = n := by omega
        simp [h0, hb1, hb2, hx, h2, h3]
      · have he : compactEncode n = 3 :: toLE4 n := by
          unfold compactEncode; rw [if_neg (by omega), if_neg (by omega), if_neg (by omega)]
        rw [he]
        unfold toLE4
        show compactDecode (3 :: n % 256 :: n / 256 % 256 ::
          n / 65536 % 256 :: n / 16777216 % 256 :: rest) = some (n, rest)
        unfold compactDecode
        have hx : n % 256 + 256 * (n / 256 % 256) + 65536 * (n / 65536 % 256) +
            16777216 * (n / 16777216 % 256) = n := by omega
        norm_num [hx, h3]

theorem decodeStr_append (s : List Nat) (hs : s.length < 4294967296) (rest : List Nat) :
    decodeStr (encodeStr s ++ rest) = some (s, rest) := by
  unfold decodeStr encodeStr
  rw [List.append_assoc, compact_rt s.length hs]
  simpa using takeN_append s rest

theorem decodeCaps_append (cs : List (List Nat)) (hcs : ∀ c ∈ cs, c.length < 4294967296)
    (rest : List Nat) :
    decodeCapsAux cs.length ((cs.map encodeStr).flatten ++ rest) = some (cs, rest) := by
  induction cs generalizing rest with
  | nil => simp [decodeCapsAux]
  | cons c cs ih =>
    have hc := hcs c (by simp)
    simp only [List.map_cons, List.flatten_cons, List.length_cons, List.append_assoc]
    unfold decodeCapsAux
    simp [decodeStr_append c hc, ih (fun x hx => hcs x (List.mem_cons_of_mem _ hx))]

theorem decode_encode (m : HandshakeMessage) (hm : ValidMsg m) (rest : List Nat) :
    decode (encode m ++ rest) = some (m, rest) := by
  obtain ⟨hv, hn, _, hc, _, hg, _, hcap, hcaps⟩ := hm
  have hver : (toLE4 m.version).length = 4 := by simp [toLE4]
  have hA : ∀ X : List Nat, takeN 4 (toLE4 m.version ++ X) = some (toLE4 m.version, X) := by
    intro X
    rw [show (4 : Nat) = (toLE4 m.version).length from hver.symm]
    exact takeN_append _ _
  have hB : ∀ X : List Nat, takeN 32 (m.genesis_hash ++ X) = some (m.genesis_hash, X) := by
    intro X
    rw [show (32 : Nat) = m.genesis_hash.length from hg.symm]
    exact takeN_append _ _
  have hf : fromLE4 (toLE4 m.version) = m.version := by
    simp only [toLE4, fromLE4]; omega
  unfold encode decode encodeCaps
  simp only [List.append_assoc]
  simp [hA, hB, hf, decodeStr_append m.name hn, decodeStr_append m.chain hc,
    compact_rt m.capabilities.length hcap,
    decodeCaps_append m.capabilities (fun c hcm => (hcaps c hcm).1)]

theorem takeN_append' (n : Nat) (c rest : List Nat) (h : c.length = n) :
    takeN n (c ++ rest) = some (c, rest) := by
  subst h; exact takeN_append c rest

theorem compact_prefix_fail (n k : Nat) (hk : k < (compactEncode n).length) :
    compactDecode ((compactEncode n).take k) = none := by
  rcases Nat.lt_or_ge n 64 with h1 | h1
  · have he : compactEncode n = [n * 4] := by unfold compactEncode; rw [if_pos h1]
    rw [he] at hk ⊢
    have hk0 : k = 0 := by simpa using hk
    subst hk0
    rfl
  · rcases Nat.lt_or_ge n 16384 with h2 | h2
    · have he : compactEncode n = [(n * 4 + 1) % 256, (n * 4 + 1) / 256] := by
        unfold compactEncode; rw [if_neg (by omega), if_pos h2]
      rw [he] at hk ⊢
      simp at hk
      have h0 : ¬ (n * 4 + 1) % 256 % 4 = 0 := by omega
      have hb1 : (n * 4 + 1) % 256 % 4 = 1 := by omega
      interval_cases k
      · rfl
      · unfold compactDecode
        simp [h0, hb1]
    · rcases Nat.lt_or_ge n 1073741824 with h3 | h3
      · have he : compactEncode n = [(n * 4 + 2) % 256, (n * 4 + 2) / 256 % 256,
            (n * 4 + 2) / 65536 % 256, (n * 4 + 2) / 16777216 % 256] := by
          unfold compactEncode; rw [if_neg (by omega), if_neg (by omega), if_pos h3]; rfl
        rw [he] at hk ⊢
        simp at hk
        have h0 : ¬ (n * 4 + 2) % 256 % 4 = 0 := by omega
        have hb1 : ¬ (n * 4 + 2) % 256 % 4 = 1 := by omega
        have hb2 : (n * 4 + 2) % 256 % 4 = 2 := by omega
        interval_cases k
        · rfl
        · unfold compactDecode; simp [h0, hb1, hb2]
        · unfold compactDecode; simp [h0, hb1, hb2]
        · unfold compactDecode; simp [h0, hb1, hb2]
      · have he : compactEncode n = [3, n % 256, n / 256 % 256,
            n / 65536 % 256, n / 16777216 % 256] := by
          unfold compactEncode; rw [if_neg (by omega), if_neg (by omega), if_neg (by omega)]; rfl
        rw [he] at hk ⊢
        simp at hk
        interval_cases k
        · rfl
        · unfold compactDecode; norm_num
        · unfold compactDecode; norm_num
        · unfold compactDecode; norm_num
        · unfold compactDecode; norm_num

theorem str_prefix_fail (s : List Nat) (hs : s.length < 4294967296) (k : Nat)
    (hk : k < (encodeStr s).length) :
    decodeStr ((encodeStr s).take k) = none := by
  unfold encodeStr at hk ⊢
  simp only [List.length_append] at hk
  rw [List.take_append_eq_append_take]
  rcases Nat.lt_or_ge k (compactEncode s.length).length with h | h
  · have h0 : k - (compactEncode s.length).length = 0 := by omega
    rw [h0]
    simp only [List.take_zero, List.append_nil]
    unfold decodeStr
    rw [compact_prefix_fail s.length k h]
    rfl
  · rw [List.take_of_length_le h]
    unfold decodeStr
    rw [compact_rt s.length hs]
    simp only [Option.bind_eq_bind, Option.some_bind]
    exact takeN_short _ _ (by rw [List.length_take]; omega)

theorem caps_prefix_fail (cs : List (List Nat)) (hcs : ∀ c ∈ cs, c.length < 4294967296)
    (k : Nat) (hk : k < ((cs.map encodeStr).flatten).length) :
    decodeCapsAux cs.length (((cs.map encodeStr).flatten).take k) = none := by
  induction cs generalizing k with
  | nil => simp at hk
  | cons c cs ih =>
    have hc := hcs c (by simp)
    simp only [List.map_cons, List.flatten_cons, List.length_append] at hk ⊢
    rw [List.take_append_eq_append_take]
    rcases Nat.lt_or_ge k (encodeStr c).length with h | h
    · have h0 : k - (encodeStr c).length = 0 := by omega
      rw [h0]
      simp only [List.take_zero, List.append_nil, List.length_cons]
      unfold decodeCapsAux
      rw [str_prefix_fail c hc k h]
      rfl
    · rw [List.take_of_length_le h]
      simp only [List.length_cons]
      unfold decodeCapsAux
      rw [decodeStr_append c hc]
      simp only [Option.bind_eq_bind, Option.some_bind]
      rw [ih (fun x hx => hcs x (List.mem_cons_of_mem _ hx)) _ (by omega)]
      rfl

theorem decode_prefix_fail (m : HandshakeMessage) (hm : ValidMsg m) (k : Nat)
    (hk : k < (encode m).length) :
    decode ((encode m).take k) = none := by
  obtain ⟨hv, hn, _, hc, _, hg, _, hcap, hcaps⟩ := hm
  have hver : (toLE4 m.version).length = 4 := by simp [toLE4]
  unfold encode encodeCaps at hk ⊢
  simp only [List.append_assoc] at hk ⊢
  simp only [List.length_append, hver] at hk
  rw [List.take_append_eq_append_take, hver]
  rcases Nat.lt_or_ge k 4 with h1 | h1
  · have h0 : k - 4 = 0 := by omega
    rw [h0]
    simp only [List.take_zero, List.append_nil]
    unfold decode
    rw [takeN_short 4 _ (by rw [List.length_take]; omega)]
    rfl
  · rw [List.take_of_length_le (by rw [hver]; exact h1)]
    unfold decode
    rw [takeN_append' 4 _ _ hver]
    simp only [Option.bind_eq_bind, Option.some_bind]
    rw [List.take_append_eq_append_take]
    rcases Nat.lt_or_ge (k - 4) (encodeStr m.name).length with h2 | h2
    · have h0 : k - 4 - (encodeStr m.name).length = 0 := by omega
      rw [h0]
      simp only [List.take_zero, List.append_nil]
      rw [str_prefix_fail m.name hn _ h2]
      rfl
    · rw [List.take_of_length_le h2, decodeStr_append m.name hn]
      simp only [Option.bind_eq_bind, Option.some_bind]
      rw [List.take_append_eq_append_take]
      rcases Nat.lt_or_ge (k - 4 - (encodeStr m.name).length)
        (encodeStr m.chain).length with h3 | h3
      · have h0 : k - 4 - (encodeStr m.name).length - (encodeStr m.chain).length = 0 := by
          omega
        rw [h0]
        simp only [List.take_zero, List.append_nil]
        rw [str_prefix_fail m.chain hc _ h3]
        rfl
      · rw [List.take_of_length_le h3, decodeStr_append m.chain hc]
        simp only [Option.bind_eq_bind, Option.some_bind]
        rw [List.take_append_eq_append_take]
        set k3 := k - 4 - (encodeStr m.name).length - (encodeStr m.chain).length with hk3
        rcases Nat.lt_or_ge k3 32 with h4 | h4
        · have h0 : k3 - m.genesis_hash.length = 0 := by omega
          rw [h0]
          simp only [List.take_zero, List.append_nil]
          rw [takeN_short 32 _ (by rw [List.length_take]; omega)]
          rfl
        · rw [List.take_of_length_le (by rw [hg]; exact h4)]
          rw [takeN_append' 32 _ _ hg]
          simp only [Option.bind_eq_bind, Option.some_bind]
          rw [List.take_append_eq_append_take]
          set k4 := k3 - m.genesis_hash.length with hk4
          rcases Nat.lt_or_ge k4 (compactEncode m.capabilities.length).length with h5 | h5
          · have h0 : k4 - (compactEncode m.capabilities.length).length = 0 := by omega
            rw [h0]
            simp only [List.take_zero, List.append_nil]
            rw [compact_prefix_fail m.capabilities.length _ h5]
            rfl
          · rw [List.take_of_length_le h5, compact_rt m.capabilities.length hcap]
            simp only [Option.bind_eq_bind, Option.some_bind]
            have h6 : k4 - (compactEncode m.capabilities.length).length <
                ((m.capabilities.map encodeStr).flatten).length := by
              rw [hk4, hk3] at *
              omega
            rw [caps_prefix_fail m.capabilities (fun x hx => (hcaps x hx).1) _ h6]
            rfl

/-! ## Query-loop lemmas -/

/-- A well-formed JSON-RPC result response carrying id `i` (result payload
`r i`), as the fake peer of the spec's correlation scenario sends them. -/
def rpcResult (r : Nat → Json) (i : Nat) : Json :=
  .obj [("jsonrpc", .str "2.0"), ("id", .num i), ("result", r i)]

/-- A well-formed JSON-RPC error response carrying id `i` and error
payload `e`. -/
def rpcError (i : Nat) (e : Json) : Json :=
  .obj [("jsonrpc", .str "2.0"), ("id", .num i), ("error", e)]

theorem rpcResult_get_error (r : Nat → Json) (i : Nat) :
    (rpcResult r i).get "error" = none := by
  simp [rpcResult, Json.get, List.find?]

theorem rpcResult_get_id (r : Nat → Json) (i : Nat) :
    (rpcResult r i).get "id" = some (.num i) := by
  simp [rpcResult, Json.get, List.find?]

theorem rpcResult_index_id (r : Nat → Json) (i : Nat) :
    (rpcResult r i).index "id" = .num i := by
  simp [Json.index, rpcResult_get_id]

/-- The `(id, response)` pair the loop logs for a resolved result. -/
def resolvedEntry (r : Nat → Json) (i : Nat) : Json × Json := (.num i, rpcResult r i)

/-- Feeding the loop one well-formed result response per id in `ids`
resolves every one of them, in arrival order, each recorded against the
id the response itself carried. -/
theorem runLoop_results (r : Nat → Json) (ids : List Nat) (n : Nat) (log : QueryLog)
    (h : log.resolved.length + ids.length = n) :
    runLoop (ids.map (fun i => .ok (.text (some (rpcResult r i))))) n log =
      .success { log with resolved := log.resolved ++ ids.map (resolvedEntry r) } := by
  induction ids generalizing log with
  | nil =>
    unfold runLoop
    simp at h
    rw [if_pos (le_of_eq h.symm)]
    simp
  | cons i ids ih =>
    rw [List.map_cons, runLoop]
    rw [if_neg (by simp at h; omega)]
    simp only [rpcResult_get_error, rpcResult_get_id, rpcResult_index_id]
    rw [ih { log with resolved := log.resolved ++ [(Json.num i, rpcResult r i)] }
      (by simp at h ⊢; omega)]
    simp [resolvedEntry]

/-! ## Lock-trace lemmas -/

theorem plain_exclusive (tr : List Ev) (h : ∀ e ∈ tr, e.plain = true) (rest : List Ev) :
    exclusive (tr ++ rest) true = exclusive rest true := by
  induction tr with
  | nil => rfl
  | cons e tr ih =>
    have he := h e (by simp)
    have h' : ∀ x ∈ tr, x.plain = true := fun x hx => h x (List.mem_cons_of_mem _ hx)
    cases e with
    | acquire => simp [Ev.plain] at he
    | release => simp [Ev.plain] at he
    | send => simpa [exclusive] using ih h'
    | recv => simpa [exclusive] using ih h'

theorem plain_lockOk (tr : List Ev) (h : ∀ e ∈ tr, e.plain = true) (rest : List Ev) :
    lockOk (tr ++ rest) true = lockOk rest true := by
  induction tr with
  | nil => rfl
  | cons e tr ih =>
    have he := h e (by simp)
    have h' : ∀ x ∈ tr, x.plain = true := fun x hx => h x (List.mem_cons_of_mem _ hx)
    cases e with
    | acquire => simp [Ev.plain] at he
    | release => simp [Ev.plain] at he
    | send => simpa [lockOk] using ih h'
    | recv => simpa [lockOk] using ih h'

theorem loopTrace_plain (items : List Item) (n : Nat) :
    ∀ len, ∀ e ∈ (loopTrace items n len).1, e.plain = true := by
  induction items with
  | nil =>
    intro len e he
    unfold loopTrace at he
    by_cases h : n ≤ len <;> simp [h] at he
  | cons it rest ih =>
    intro len e he
    unfold loopTrace at he
    by_cases h : n ≤ len
    · simp [h] at he
    · rw [if_neg h] at he
      cases it with
      | err => simp at he; subst he; rfl
      | ok f =>
        cases f with
        | text p =>
          cases p with
          | none => simp at he; subst he; rfl
          | some j =>
            simp at he
            rcases he with he | he
            · subst he; rfl
            · exact ih _ e he
        | binary b =>
          simp at he
          rcases he with he | he
          · subst he; rfl
          · exact ih _ e he
        | ping =>
          simp at he
          rcases he with he | he
          · subst he; rfl
          · exact ih _ e he
        | pong =>
          simp at he
          rcases he with he | he
          · subst he; rfl
          · exact ih _ e he
        | close =>
          simp at he
          rcases he with he | he
          · subst he; rfl
          · exact ih _ e he

theorem hs_exclusive (sendOk : Bool) (rest : List Ev) :
    exclusive (hsTrace sendOk ++ rest) false = exclusive rest false := by
  cases sendOk <;> rfl

theorem hs_lockOk (sendOk : Bool) (rest : List Ev) :
    lockOk (hsTrace sendOk ++ rest) false = lockOk rest false := by
  cases sendOk <;> rfl

theorem query_lock (sendFail : Option (Fin 3)) (items : List Item) :
    exclusive (queryTrace sendFail items).1 false = true ∧
    ((queryTrace sendFail items).2 = true →
      lockOk (queryTrace sendFail items).1 false = true) := by
  cases sendFail with
  | some i =>
    refine ⟨?_, fun _ => ?_⟩ <;> fin_cases i <;> rfl
  | none =>
    have hp := loopTrace_plain items queryRequests.length 0
    constructor
    · show exclusive (.acquire :: .send :: .send :: .send :: _) false = true
      simp only [exclusive, Bool.not_false, Bool.true_and]
      rw [plain_exclusive _ hp]
      cases hc : (loopTrace items queryRequests.length 0).2 <;> rfl
    · intro hc
      show lockOk (.acquire :: .send :: .send :: .send :: _) false = true
      simp only [lockOk, Bool.not_false, Bool.true_and]
      rw [plain_lockOk _ hp]
      have hc' : (loopTrace items queryRequests.length 0).2 = true := hc
      rw [hc']
      rfl

/-! ## Concrete fixtures -/

/-- The 32-byte genesis hash `0x59` repeated (any fixed 32-byte value). -/
def sampleGenesis : List Nat := List.replicate 32 89

/-- The outbound handshake of `perform_handshake`: version 1, name
"my-node", chain "my-chain", capabilities ["full"], as UTF-8 bytes. -/
def sampleMsg : HandshakeMessage :=
  ⟨1, [109, 121, 45, 110, 111, 100, 101], [109, 121, 45, 99, 104, 97, 105, 110],
    sampleGenesis, [[102, 117, 108, 108]]⟩

/-! ## Claims -/

/-- C1.  For a batch of N requests with ids 1..N, responses delivered in
an arbitrary permutation of those ids make the receive loop succeed and
report exactly N resolved outcomes, each recorded against the id the
response itself carried (arrival order only fixes the order of the
report, never which id an outcome is matched to). -/
theorem claim_C1_correlation (r : Nat → Json) (N : Nat) (ids : List Nat)
    (hperm : ids.Perm (List.range' 1 N)) :
    ∃ log : QueryLog,
      runLoop (ids.map (fun i => .ok (.text (some (rpcResult r i))))) N .init =
        .success log ∧
      log.resolved = ids.map (resolvedEntry r) ∧
      log.resolved.length = N := by
  have hlen : ids.length = N := by
    simpa using hperm.length_eq
  refine ⟨⟨ids.map (resolvedEntry r), [], []⟩, ?_, rfl, by simp [hlen]⟩
  have := runLoop_results r ids N .init (by simp [QueryLog.init, hlen])
  simpa [QueryLog.init] using this

theorem claim_C1_witness :
    ([2, 1, 3] : List Nat).Perm (List.range' 1 3) ∧
    ∃ log : QueryLog,
      runLoop (([2, 1, 3] : List Nat).map
          (fun i => .ok (.text (some (rpcResult (fun _ => .str "v") i))))) 3 .init =
        .success log ∧
      log.resolved = ([2, 1, 3] : List Nat).map (resolvedEntry (fun _ => .str "v")) ∧
      log.resolved.length = 3 :=
  ⟨by decide, claim_C1_correlation (fun _ => .str "v") 3 [2, 1, 3] (by decide)⟩

/-- C2.  Evidence for the divergence: the error branch of the receive
loop logs the failure against its id but does not increment
`received_responses`, so the batch `{id 1 ok, id 2 error, id 3 ok}`
leaves the count at 2 of 3 after the stream is exhausted and the loop
never terminates (`hung`), whereas the claim requires the error to count
as resolved and the loop to terminate.  Ids 1 and 3 do resolve. -/
theorem claim_C2_error_hangs :
    runLoop
      [.ok (.text (some (rpcResult (fun _ => .str "MyNode") 1))),
       .ok (.text (some (rpcError 2 (.str "boom")))),
       .ok (.text (some (rpcResult (fun _ => .str "v1") 3)))]
      queryRequests.length .init =
    .hung ⟨[(.num 1, rpcResult (fun _ => .str "MyNode") 1),
            (.num 3, rpcResult (fun _ => .str "v1") 3)],
           [(.num 2, .str "boom")], []⟩ := by
  rfl

/-- C3 counterexample.  The handshake returns success (`Ok(())`), not a
failure, both when the stream closes before any reply and when the
single reply is a text frame: both `if let`s fall through to `Ok(())`. -/
theorem claim_C3_counterexample :
    (performHandshake true none).isFailure = false ∧
    (performHandshake true (some (.ok (.text none)))).isFailure = false :=
  ⟨rfl, rfl⟩

/-- C3 (amended).  The handshake surfaces distinct unretried failures
for a send failure, a receive-level transport error, and a decode
failure of a binary reply; but when the stream closes before a reply, or
the reply frame is a text frame instead of binary, it returns success
with no decoded reply rather than a failure. -/
theorem claim_C3_amended :
    (∀ reply, performHandshake false reply = .sendFailed) ∧
    performHandshake true (some .err) = .recvErr ∧
    (∀ b, decode b = none →
      performHandshake true (some (.ok (.binary b))) = .decodeFailed) ∧
    performHandshake true none = .ok none ∧
    (∀ p, performHandshake true (some (.ok (.text p))) = .ok none) := by
  refine ⟨fun reply => rfl, rfl, fun b hb => ?_, rfl, fun p => rfl⟩
  unfold performHandshake
  simp [hb]

theorem claim_C3_witness :
    performHandshake false none = .sendFailed ∧
    decode [] = none ∧
    performHandshake true (some (.ok (.binary []))) = .decodeFailed ∧
    performHandshake true (some (.ok (.text (some .null)))) = .ok none :=
  ⟨claim_C3_amended.1 none, rfl, claim_C3_amended.2.2.1 [] rfl,
    claim_C3_amended.2.2.2.2 (some .null)⟩

/-- C4 counterexample.  A stream that closes (yields no further items)
before all ids resolve does not abort the batch: the loop reaches the
`hung` state — `next()` returns `None` forever, the `if let` body is
skipped, and the `while` spins indefinitely instead of surfacing a
failure. -/
theorem claim_C4_counterexample :
    runLoop [] queryRequests.length .init = .hung .init := rfl

/-- C4 (amended).  An `Err` item from the stream, or a text frame whose
payload fails JSON parsing, aborts the remaining batch via `?` and
surfaces the failure, retaining the already-resolved log; but a cleanly
closed stream does not abort — the loop waits indefinitely. -/
theorem claim_C4_amended (items : List Item) (n : Nat) (log : QueryLog)
    (h : log.resolved.length < n) :
    runLoop (.err :: items) n log = .aborted log ∧
    runLoop (.ok (.text none) :: items) n log = .aborted log := by
  constructor <;> (rw [runLoop]; rw [if_neg (by omega)])

theorem claim_C4_witness :
    QueryLog.init.resolved.length < queryRequests.length ∧
    runLoop [.err] queryRequests.length .init = .aborted .init ∧
    runLoop [.ok (.text none)] queryRequests.length .init = .aborted .init :=
  ⟨by decide, (claim_C4_amended [] queryRequests.length .init (by decide)).1,
    (claim_C4_amended [] queryRequests.length .init (by decide)).2⟩

/-- C5.  Round-trip law: for every valid message, decoding the encoded
bytes yields the original message in every field, consuming the whole
buffer. -/
theorem claim_C5_roundtrip (m : HandshakeMessage) (hm : ValidMsg m) :
    decode (encode m) = some (m, []) := by
  simpa using decode_encode m hm []

theorem claim_C5_witness :
    ValidMsg sampleMsg ∧ decode (encode sampleMsg) = some (sampleMsg, []) :=
  ⟨by decide, claim_C5_roundtrip sampleMsg (by decide)⟩

/-- C6 counterexample.  The valid hex string "ab" decodes to the single
byte 0xab, so its length is not 32; `main` then hits
`try_into().expect(...)` and panics instead of yielding a reported
error, contradicting the claim that every wrong-length input is a
reported (non-panicking) failure. -/
theorem claim_C6_counterexample :
    hexDecode ['a', 'b'] = some [171] ∧ genesisGate ['a', 'b'] = .panic :=
  ⟨rfl, rfl⟩

/-- C6 (amended).  A genesis-hash string that does not hex-decode to
exactly 32 bytes stops `main` before any network activity: as a reported
error when hex decoding itself fails, and as a panic (via `expect`) when
it hex-decodes to a byte count other than 32; in neither case does
execution proceed to `connect_async`. -/
theorem claim_C6_amended (s : List Char)
    (h : ∀ bs, hexDecode s = some bs → bs.length ≠ 32) :
    genesisGate s = .errReturn ∨ genesisGate s = .panic := by
  unfold genesisGate
  cases hx : hexDecode s with
  | none => exact Or.inl rfl
  | some bs =>
    refine Or.inr ?_
    show (if bs.length = 32 then GenesisOutcome.proceed bs else .panic) = .panic
    rw [if_neg (h bs hx)]

theorem claim_C6_witness :
    (∀ bs, hexDecode ['z'] = some bs → bs.length ≠ 32) ∧
    (genesisGate ['z'] = .errReturn ∨ genesisGate ['z'] = .panic) :=
  ⟨fun bs h => by
      rw [show hexDecode ['z'] = none from rfl] at h
      exact Option.noConfusion h,
   claim_C6_amended ['z'] (fun bs h => by
      rw [show hexDecode ['z'] = none from rfl] at h
      exact Option.noConfusion h)⟩

/-- C7.  Decoding any strict prefix of an encoded valid message fails
with a decode error (`none`) — never a partial value, and the total
`Option`-valued decoder has no panicking path. -/
theorem claim_C7_truncation (m : HandshakeMessage) (hm : ValidMsg m) (k : Nat)
    (hk : k < (encode m).length) :
    decode ((encode m).take k) = none :=
  decode_prefix_fail m hm k hk

theorem claim_C7_witness :
    ValidMsg sampleMsg ∧ 10 < (encode sampleMsg).length ∧
    decode ((encode sampleMsg).take 10) = none :=
  ⟨by decide, by decide, claim_C7_truncation sampleMsg (by decide) 10 (by decide)⟩

/-- C8.  The encoder lays out every field in declaration order: the
version as four little-endian bytes (fixed-width 32-bit), name and chain
as compact-length-prefixed byte strings, the genesis hash as a raw
32-byte block (its own bytes, unprefixed), and the capabilities as a
compact-length-prefixed sequence of compact-length-prefixed byte
strings.  `encode` is total: encoding a valid in-memory value always
succeeds. -/
theorem claim_C8_layout (m : HandshakeMessage) :
    encode m =
      [m.version % 256, m.version / 256 % 256, m.version / 65536 % 256,
        m.version / 16777216 % 256] ++
      (compactEncode m.name.length ++ m.name) ++
      (compactEncode m.chain.length ++ m.chain) ++
      m.genesis_hash ++
      (compactEncode m.capabilities.length ++
        (m.capabilities.map (fun c => compactEncode c.length ++ c)).flatten) := by
  simp only [encode, encodeStr, encodeCaps, toLE4, List.append_assoc]
  rfl

/-- C9.  In every environment, the lock traces of `main` keep at most
one logical operation in the stream handle's critical section at a time
(never a second acquire while held, every stream operation under the
lock), and whenever the operations run to completion the lock ends
released — every exit path, including the error returns, drops the
guard. -/
theorem claim_C9_lock_discipline (sendOk : Bool) (reply : Option Item)
    (sendFail : Option (Fin 3)) (items : List Item) :
    exclusive (mainTrace sendOk reply sendFail items).1 false = true ∧
    ((mainTrace sendOk reply sendFail items).2 = true →
      lockOk (mainTrace sendOk reply sendFail items).1 false = true) := by
  unfold mainTrace
  by_cases hf : (performHandshake sendOk reply).isFailure = true
  · rw [if_pos hf]
    exact ⟨by cases sendOk <;> rfl, fun _ => by cases sendOk <;> rfl⟩
  · rw [if_neg hf]
    refine ⟨?_, fun hc => ?_⟩
    · rw [hs_exclusive]
      exact (query_lock sendFail items).1
    · rw [hs_lockOk]
      exact (query_lock sendFail items).2 hc

theorem claim_C9_witness :
    (mainTrace true none none
      [.ok (.text (some (rpcResult (fun _ => .str "a") 1))),
       .ok (.text (some (rpcResult (fun _ => .str "b") 2))),
       .ok (.text (some (rpcResult (fun _ => .str "c") 3)))]).2 = true ∧
    lockOk (mainTrace true none none
      [.ok (.text (some (rpcResult (fun _ => .str "a") 1))),
       .ok (.text (some (rpcResult (fun _ => .str "b") 2))),
       .ok (.text (some (rpcResult (fun _ => .str "c") 3)))]).1 false = true :=
  ⟨rfl, (claim_C9_lock_discipline true none none
      [.ok (.text (some (rpcResult (fun _ => .str "a") 1))),
       .ok (.text (some (rpcResult (fun _ => .str "b") 2))),
       .ok (.text (some (rpcResult (fun _ => .str "c") 3)))]).2 rfl⟩

/-- C10.  Any inbound frame that is not a text frame (binary, ping,
pong, close) is silently skipped by the receive loop: nothing is parsed,
none of the three logs change, and the resolved count is unchanged —
the loop state after such a frame equals the state without it. -/
theorem claim_C10_nontext_ignored (f : Frame) (hf : f.isText = false)
    (rest : List Item) (n : Nat) (log : QueryLog)
    (h : log.resolved.length < n) :
    runLoop (.ok f :: rest) n log = runLoop rest n log := by
  cases f with
  | text p => simp [Frame.isText] at hf
  | binary b =>
    show (if n ≤ log.resolved.length then LoopOutcome.success log else runLoop rest n log) =
      runLoop rest n log
    rw [if_neg (by omega)]
  | ping =>
    show (if n ≤ log.resolved.length then LoopOutcome.success log else runLoop rest n log) =
      runLoop rest n log
    rw [if_neg (by omega)]
  | pong =>
    show (if n ≤ log.resolved.length then LoopOutcome.success log else runLoop rest n log) =
      runLoop rest n log
    rw [if_neg (by omega)]
  | close =>
    show (if n ≤ log.resolved.length then LoopOutcome.success log else runLoop rest n log) =
      runLoop rest n log
    rw [if_neg (by omega)]

theorem claim_C10_witness :
    Frame.ping.isText = false ∧
    QueryLog.init.resolved.length < queryRequests.length ∧
    runLoop [.ok .ping] queryRequests.length .init =
      runLoop [] queryRequests.length .init :=
  ⟨rfl, by decide,
    claim_C10_nontext_ignored .ping rfl [] queryRequests.length .init (by decide)⟩

end SubstrateHandshake
